import Mathlib

/-!
Verification of the `yahboom_gps` crate (src/lib.rs): a shallow embedding of
the message framer `read_complete_gps_message` and the sentence parser
`parse_gps_data`, together with theorems settling the specification claims.

Bytes are modelled as `Nat` (each value below 256 in practice; the algorithms
only compare bytes for equality, so no modular arithmetic arises). Strings
manipulated by the Rust code are modelled as lists of Unicode code points
(`List Nat`).
-/

/-- Code points of a string literal; for the ASCII literals used throughout,
these coincide with the UTF-8 bytes of the literal. -/
def ascii (s : String) : List Nat := s.data.map Char.toNat

/-- Does `pat` occur at the start of `l`? (`pat` is the first argument.) -/
def startsWithSeq : List Nat → List Nat → Bool
  | [], _ => true
  | _ :: _, [] => false
  | p :: ps, b :: bs => p == b && startsWithSeq ps bs

/-- Embedding of `String::from_utf8_lossy(line).starts_with(pat)` for the two
ASCII sentinel patterns of the source. Lossy UTF-8 decoding maps a byte
sequence beginning with ASCII bytes to a string beginning with those same
characters, and conversely a decoded string can only begin with an ASCII
character if the underlying bytes do (invalid sequences decode to U+FFFD and
valid multi-byte sequences to code points at least U+0080), so the check is
exactly a byte-level comparison against the pattern's ASCII bytes. -/
def sentenceStartsWith (line : List Nat) (pat : String) : Bool :=
  startsWithSeq (ascii pat) line

/-- The framer's in-progress state: `current_message` and `collecting` of
`read_complete_gps_message` (src/lib.rs lines 170-171). -/
structure FramerState where
  current_message : List Nat
  collecting : Bool
deriving DecidableEq

/-- The state at function entry: empty message, not collecting. -/
def initState : FramerState := ⟨[], false⟩

/-- Embedding of the body of the inner scanning loop of
`read_complete_gps_message` (src/lib.rs lines 178-196) for one extracted line
(the line includes its terminating newline byte, as in the source slice
`[0, index]`): reset on the start sentinel, append while collecting, and
return the completed message on the end sentinel while collecting. -/
def stepLine (s : FramerState) (line : List Nat) : FramerState ⊕ List Nat :=
  let s1 := if sentenceStartsWith line "$GNGGA" then ⟨[], true⟩ else s
  let s2 := if s1.collecting then ⟨s1.current_message ++ line, s1.collecting⟩ else s1
  if sentenceStartsWith line "$GPTXT" && s2.collecting then Sum.inr s2.current_message
  else Sum.inl s2

/-- Greedy decomposition of the accumulator into complete newline-terminated
lines plus the trailing remainder holding no newline: the effect of the
source's repeated `position(|&x| x == b'\n')` / slice / `drain` scanning. -/
def splitLines : List Nat → List (List Nat) × List Nat
  | [] => ([], [])
  | b :: rest =>
    if b = 10 then ([10] :: (splitLines rest).1, (splitLines rest).2)
    else
      match splitLines rest with
      | ([], rem) => ([], b :: rem)
      | (l :: ls, rem) => ((b :: l) :: ls, rem)

/-- Run the scanning loop over a list of extracted lines: stop with `Sum.inr`
as soon as a completed message is returned, otherwise carry the state. -/
def runLines (s : FramerState) : List (List Nat) → FramerState ⊕ List Nat
  | [] => Sum.inl s
  | l :: ls =>
    match stepLine s l with
    | Sum.inl s2 => runLines s2 ls
    | Sum.inr m => Sum.inr m

/-- Embedding of the outer read loop of `read_complete_gps_message`
(src/lib.rs lines 173-205): each successful read appends a chunk to the
accumulator, all complete lines are scanned, and on a completed message the
function returns, leaving the unread chunks at the port. The accumulator is a
local variable of the call, so its leftover bytes are not part of the result.
`none` models the call never completing (the real loop blocks for more data;
a zero-byte read is modelled by an empty chunk, which is a no-op append). -/
def runChunks (s : FramerState) (acc : List Nat) : List (List Nat) → Option (List Nat × List (List Nat))
  | [] => none
  | c :: cs =>
    let p := splitLines (acc ++ c)
    match runLines s p.1 with
    | Sum.inl s2 => runChunks s2 p.2 cs
    | Sum.inr m => some (m, cs)

/-- Embedding of one invocation of `read_complete_gps_message`
(src/lib.rs lines 167-206), the port being modelled as the list of byte
chunks its successive reads deliver. Returns the completed raw message
together with the chunks not yet read from the port. -/
def read_complete_gps_message (chunks : List (List Nat)) : Option (List Nat × List (List Nat)) :=
  runChunks initState [] chunks

/-- Two successive top-level invocations of `read_complete_gps_message`
against one port stream: the second call reads the chunks the first one left
at the port. Returns the two messages (if any). -/
def framerCalls (chunks : List (List Nat)) : Option (List Nat) × Option (List Nat) :=
  match read_complete_gps_message chunks with
  | none => (none, none)
  | some (m, rest) => (some m, (read_complete_gps_message rest).map Prod.fst)

/-- Is `b` a UTF-8 continuation byte? -/
def utf8Cont (b : Nat) : Bool := 128 ≤ b && b ≤ 191

/-- Strict UTF-8 decoding to code points, `none` on any invalid input:
the validation performed by `str::from_utf8` (overlong encodings, surrogates
and out-of-range values all rejected). -/
def utf8Decode : List Nat → Option (List Nat)
  | [] => some []
  | b :: rest =>
    if b < 128 then (utf8Decode rest).map (fun cs => b :: cs)
    else if 194 ≤ b ∧ b ≤ 223 then
      match rest with
      | b1 :: r =>
        if utf8Cont b1 then
          (utf8Decode r).map (fun cs => ((b - 192) * 64 + (b1 - 128)) :: cs)
        else none
      | [] => none
    else if b = 224 then
      match rest with
      | b1 :: b2 :: r =>
        if (160 ≤ b1 && b1 ≤ 191) && utf8Cont b2 then
          (utf8Decode r).map (fun cs => ((b - 224) * 4096 + (b1 - 128) * 64 + (b2 - 128)) :: cs)
        else none
      | _ => none
    else if (225 ≤ b ∧ b ≤ 236) ∨ (238 ≤ b ∧ b ≤ 239) then
      match rest with
      | b1 :: b2 :: r =>
        if utf8Cont b1 && utf8Cont b2 then
          (utf8Decode r).map (fun cs => ((b - 224) * 4096 + (b1 - 128) * 64 + (b2 - 128)) :: cs)
        else none
      | _ => none
    else if b = 237 then
      match rest with
      | b1 :: b2 :: r =>
        if (128 ≤ b1 && b1 ≤ 159) && utf8Cont b2 then
          (utf8Decode r).map (fun cs => ((b - 224) * 4096 + (b1 - 128) * 64 + (b2 - 128)) :: cs)
        else none
      | _ => none
    else if b = 240 then
      match rest with
      | b1 :: b2 :: b3 :: r =>
        if ((144 ≤ b1 && b1 ≤ 191) && utf8Cont b2) && utf8Cont b3 then
          (utf8Decode r).map (fun cs =>
            ((b - 240) * 262144 + (b1 - 128) * 4096 + (b2 - 128) * 64 + (b3 - 128)) :: cs)
        else none
      | _ => none
    else if 241 ≤ b ∧ b ≤ 243 then
      match rest with
      | b1 :: b2 :: b3 :: r =>
        if (utf8Cont b1 && utf8Cont b2) && utf8Cont b3 then
          (utf8Decode r).map (fun cs =>
            ((b - 240) * 262144 + (b1 - 128) * 4096 + (b2 - 128) * 64 + (b3 - 128)) :: cs)
        else none
      | _ => none
    else if b = 244 then
      match rest with
      | b1 :: b2 :: b3 :: r =>
        if ((128 ≤ b1 && b1 ≤ 143) && utf8Cont b2) && utf8Cont b3 then
          (utf8Decode r).map (fun cs =>
            ((b - 240) * 262144 + (b1 - 128) * 4096 + (b2 - 128) * 64 + (b3 - 128)) :: cs)
        else none
      | _ => none
    else none

/-- Split a code-point list on a delimiter, keeping every (possibly empty)
piece: the semantics of Rust's `str::split` on a single character. -/
def splitOnByte (d : Nat) : List Nat → List (List Nat)
  | [] => [[]]
  | b :: rest =>
    if b = d then [] :: splitOnByte d rest
    else
      match splitOnByte d rest with
      | [] => [[b]]
      | p :: ps => (b :: p) :: ps

/-- Remove one trailing carriage return, as Rust's `str::lines` does. -/
def stripCr (l : List Nat) : List Nat :=
  if l.getLast? = some 13 then l.dropLast else l

/-- Embedding of Rust's `str::lines`: split on `\n`, drop the final empty
piece produced by a trailing newline, and strip one trailing `\r` from each
line. -/
def rustLines (s : List Nat) : List (List Nat) :=
  let ps := splitOnByte 10 s
  let qs := if ps.getLast? = some [] then ps.dropLast else ps
  qs.map stripCr

/-- Embedding of Rust's `str::split_once(',')`: `none` when no comma occurs,
otherwise the pieces before and after the first comma. -/
def splitOnce : List Nat → Option (List Nat × List Nat)
  | [] => none
  | b :: rest =>
    if b = 44 then some ([], rest)
    else (splitOnce rest).map (fun p => (b :: p.1, p.2))

/-- One parsed sentence: field name to field value. -/
abbrev Entry := List (List Nat × List Nat)

/-- The parsed snapshot: sentence type to entry, modelling the JSON object
`result` of `parse_gps_data`. -/
abbrev Snapshot := List (List Nat × Entry)

/-- Association-list lookup by key. -/
def lookupKey {α : Type} : List (List Nat × α) → List Nat → Option α
  | [], _ => none
  | (k, v) :: rest, key => if k = key then some v else lookupKey rest key

/-- Insert-or-replace of a key, modelling `result[sentence_type] = json!(...)`
on the JSON object. -/
def setKey : Snapshot → List Nat → Entry → Snapshot
  | [], k, v => [(k, v)]
  | (k1, v1) :: rest, k, v =>
    if k1 = k then (k, v) :: rest else (k1, v1) :: setKey rest k v

/-- Embedding of the `match sentence_type` dispatch of `parse_gps_data`
(src/lib.rs lines 241-313): each arm builds the entry from
`fields.get(i).unwrap_or(&"")` (here `fields.getD i []`), the `GPTXT` arm
stores the whole `rest`, and unknown types produce nothing. -/
def mkEntry (sentence_type rest : List Nat) (fields : List (List Nat)) : Option Entry :=
  if sentence_type = ascii "GNGGA" then some
    [(ascii "time", fields.getD 0 []),
     (ascii "latitude", fields.getD 1 []),
     (ascii "longitude", fields.getD 3 []),
     (ascii "fix_quality", fields.getD 5 []),
     (ascii "num_of_satellites", fields.getD 6 []),
     (ascii "horizontal_dilution", fields.getD 7 []),
     (ascii "altitude", fields.getD 8 []),
     (ascii "height_of_geoid", fields.getD 10 [])]
  else if sentence_type = ascii "GNGLL" then some
    [(ascii "latitude", fields.getD 0 []),
     (ascii "longitude", fields.getD 1 []),
     (ascii "time", fields.getD 4 []),
     (ascii "status", fields.getD 5 [])]
  else if sentence_type = ascii "GPGSA" ∨ sentence_type = ascii "BDGSA" then some
    [(ascii "mode", fields.getD 0 []),
     (ascii "fix_type", fields.getD 1 []),
     (ascii "pdop", fields.getD 14 []),
     (ascii "hdop", fields.getD 15 []),
     (ascii "vdop", fields.getD 16 [])]
  else if sentence_type = ascii "GPGSV" ∨ sentence_type = ascii "BDGSV" then some
    [(ascii "num_of_messages", fields.getD 0 []),
     (ascii "message_number", fields.getD 1 []),
     (ascii "satellites_in_view", fields.getD 2 [])]
  else if sentence_type = ascii "GNRMC" then some
    [(ascii "time", fields.getD 0 []),
     (ascii "status", fields.getD 1 []),
     (ascii "latitude", fields.getD 2 []),
     (ascii "longitude", fields.getD 4 []),
     (ascii "speed", fields.getD 6 []),
     (ascii "date", fields.getD 8 []),
     (ascii "variation", fields.getD 9 [])]
  else if sentence_type = ascii "GNVTG" then some
    [(ascii "track_degrees_true", fields.getD 0 []),
     (ascii "track_degrees_magnetic", fields.getD 2 []),
     (ascii "speed_knots", fields.getD 4 []),
     (ascii "speed_kmph", fields.getD 6 [])]
  else if sentence_type = ascii "GNZDA" then some
    [(ascii "time", fields.getD 0 []),
     (ascii "day", fields.getD 1 []),
     (ascii "month", fields.getD 2 []),
     (ascii "year", fields.getD 3 []),
     (ascii "local_zone_hours", fields.getD 4 []),
     (ascii "local_zone_minutes", fields.getD 5 [])]
  else if sentence_type = ascii "GPTXT" then some [(ascii "text", rest)]
  else none

/-- Processing of one line of the loop body of `parse_gps_data`
(src/lib.rs lines 234-314): split once on the first comma (lines without a
comma are skipped), strip every leading `$` (`trim_start_matches('$')`),
split `rest` into fields, dispatch, and store the entry under the sentence
type. -/
def parseStep (result : Snapshot) (line : List Nat) : Snapshot :=
  match splitOnce line with
  | none => result
  | some (tag, rest) =>
    let sentence_type := tag.dropWhile (fun b => b == 36)
    let fields := splitOnByte 44 rest
    match mkEntry sentence_type rest fields with
    | none => result
    | some e => setKey result sentence_type e

/-- Embedding of `parse_gps_data` (src/lib.rs lines 230-318):
`str::from_utf8(nmea_data).unwrap_or_default()` decodes strictly, yielding
the empty string on any invalid byte; the lines of the decoded text are then
folded through `parseStep` starting from the empty object. -/
def parse_gps_data (nmea_data : List Nat) : Snapshot :=
  let data_str := (utf8Decode nmea_data).getD []
  (rustLines data_str).foldl parseStep []

/-- The extraction table of the specification (section 4.2), for the
field-indexed sentence types: output field name paired with the zero-based
index into the field list. `GPTXT` takes the whole `rest` and so has no
indexed row; unknown types have none either. -/
def fieldTable (t : List Nat) : List (List Nat × Nat) :=
  if t = ascii "GNGGA" then
    [(ascii "time", 0), (ascii "latitude", 1), (ascii "longitude", 3),
     (ascii "fix_quality", 5), (ascii "num_of_satellites", 6),
     (ascii "horizontal_dilution", 7), (ascii "altitude", 8),
     (ascii "height_of_geoid", 10)]
  else if t = ascii "GNGLL" then
    [(ascii "latitude", 0), (ascii "longitude", 1), (ascii "time", 4), (ascii "status", 5)]
  else if t = ascii "GPGSA" ∨ t = ascii "BDGSA" then
    [(ascii "mode", 0), (ascii "fix_type", 1), (ascii "pdop", 14),
     (ascii "hdop", 15), (ascii "vdop", 16)]
  else if t = ascii "GPGSV" ∨ t = ascii "BDGSV" then
    [(ascii "num_of_messages", 0), (ascii "message_number", 1), (ascii "satellites_in_view", 2)]
  else if t = ascii "GNRMC" then
    [(ascii "time", 0), (ascii "status", 1), (ascii "latitude", 2),
     (ascii "longitude", 4), (ascii "speed", 6), (ascii "date", 8), (ascii "variation", 9)]
  else if t = ascii "GNVTG" then
    [(ascii "track_degrees_true", 0), (ascii "track_degrees_magnetic", 2),
     (ascii "speed_knots", 4), (ascii "speed_kmph", 6)]
  else if t = ascii "GNZDA" then
    [(ascii "time", 0), (ascii "day", 1), (ascii "month", 2), (ascii "year", 3),
     (ascii "local_zone_hours", 4), (ascii "local_zone_minutes", 5)]
  else []

/-- The output field names of a sentence type's table row, including the
`text` field of `GPTXT`. -/
def rowNames (t : List Nat) : List (List Nat) :=
  if t = ascii "GPTXT" then [ascii "text"] else (fieldTable t).map Prod.fst

/-- The sentence types handled by the dispatch of `parse_gps_data`. -/
def knownTypes : List (List Nat) :=
  [ascii "GNGGA", ascii "GNGLL", ascii "GPGSA", ascii "BDGSA", ascii "GPGSV",
   ascii "BDGSV", ascii "GNRMC", ascii "GNVTG", ascii "GNZDA", ascii "GPTXT"]

/-- A complete line: some newline-free content followed by the newline. -/
def IsLine (l : List Nat) : Prop := ∃ c, l = c ++ [10] ∧ 10 ∉ c

/-- Well-formedness of a returned raw message: a concatenation of whole
newline-terminated lines whose first line carries the start sentinel, whose
last line carries the end sentinel, and whose interior lines carry neither. -/
def MsgWF (m : List Nat) : Prop :=
  ∃ a mid z,
    m = (a :: (mid ++ [z])).flatten ∧
    (∀ l ∈ a :: (mid ++ [z]), IsLine l) ∧
    sentenceStartsWith a "$GNGGA" = true ∧
    sentenceStartsWith z "$GPTXT" = true ∧
    ∀ l ∈ mid, sentenceStartsWith l "$GNGGA" = false ∧ sentenceStartsWith l "$GPTXT" = false

/-- The framer's scan applied to the whole byte stream at once: the first
completed message, if the stream contains one. Reference point for the
chunk-boundary-independence results. -/
def flatMsg (s : FramerState) (bytes : List Nat) : Option (List Nat) :=
  match runLines s (splitLines bytes).1 with
  | Sum.inl _ => none
  | Sum.inr m => some m

/-- The `GNGGA` entry produced for the single-field line `$GNGGA,x`. -/
def sampleGga : Entry :=
  [(ascii "time", ascii "x"), (ascii "latitude", []), (ascii "longitude", []),
   (ascii "fix_quality", []), (ascii "num_of_satellites", []),
   (ascii "horizontal_dilution", []), (ascii "altitude", []),
   (ascii "height_of_geoid", [])]

/-- Invariant of the framer's collecting state: while collecting, the
in-progress message is a concatenation of whole lines beginning with a
start-sentinel line, with no further sentinel lines after it. -/
def FramerInv (s : FramerState) : Prop :=
  s.collecting = true →
  ∃ a mid,
    s.current_message = (a :: mid).flatten ∧
    (∀ l ∈ a :: mid, IsLine l) ∧
    sentenceStartsWith a "$GNGGA" = true ∧
    ∀ l ∈ mid, sentenceStartsWith l "$GNGGA" = false ∧ sentenceStartsWith l "$GPTXT" = false

lemma ascii_gga : ascii "$GNGGA" = [36, 71, 78, 71, 71, 65] := by decide

lemma ascii_txt : ascii "$GPTXT" = [36, 71, 80, 84, 88, 84] := by decide

lemma gga_txt_incompat (l : List Nat) :
    sentenceStartsWith l "$GNGGA" = true → sentenceStartsWith l "$GPTXT" = false := by
  intro h1
  by_contra h2
  rw [Bool.not_eq_false] at h2
  unfold sentenceStartsWith at h1 h2
  rw [ascii_gga] at h1
  rw [ascii_txt] at h2
  rcases l with _ | ⟨a, l⟩
  · simp [startsWithSeq] at h1
  rcases l with _ | ⟨b, l⟩
  · simp [startsWithSeq] at h1
  rcases l with _ | ⟨c, l⟩
  · simp [startsWithSeq] at h1
  simp only [startsWithSeq, Bool.and_eq_true, beq_iff_eq] at h1 h2
  obtain ⟨-, -, hc, -⟩ := h1
  obtain ⟨-, -, hc2, -⟩ := h2
  omega

lemma splitLines_noNl (l : List Nat) (h : 10 ∉ l) : splitLines l = ([], l) := by
  induction l with
  | nil => rfl
  | cons b rest ih =>
    have hb : b ≠ 10 := fun hb => h (hb ▸ List.mem_cons_self b rest)
    have h2 : 10 ∉ rest := fun hm => h (List.mem_cons_of_mem _ hm)
    simp [splitLines, hb, ih h2]

lemma splitLines_cons_ne (x : Nat) (rest : List Nat) (hx : x ≠ 10) :
    splitLines (x :: rest) =
      (match splitLines rest with
       | ([], rem) => ([], x :: rem)
       | (l :: ls, rem) => ((x :: l) :: ls, rem)) := by
  simp [splitLines, hx]

lemma splitLines_rem_noNl (l : List Nat) : 10 ∉ (splitLines l).2 := by
  induction l with
  | nil => simp [splitLines]
  | cons b rest ih =>
    by_cases hb : b = 10
    · simpa [splitLines, hb] using ih
    · rw [splitLines_cons_ne b rest hb]
      rcases hs : splitLines rest with ⟨ls, rem⟩
      rw [hs] at ih
      rcases ls with _ | ⟨l0, ls⟩
      · simp only [List.mem_cons, not_or]
        exact ⟨fun h => hb h.symm, ih⟩
      · exact ih

lemma splitLines_isLine (l : List Nat) : ∀ x ∈ (splitLines l).1, IsLine x := by
  induction l with
  | nil => intro x hx; simp [splitLines] at hx
  | cons b rest ih =>
    by_cases hb : b = 10
    · subst hb
      intro x hx
      rw [show splitLines (10 :: rest) = ([10] :: (splitLines rest).1, (splitLines rest).2) by
        simp [splitLines]] at hx
      rcases List.mem_cons.mp hx with hx | hx
      · exact ⟨[], by simp [hx], by simp⟩
      · exact ih x hx
    · rw [splitLines_cons_ne b rest hb]
      rcases hs : splitLines rest with ⟨ls, rem⟩
      rw [hs] at ih
      rcases ls with _ | ⟨l0, ls⟩
      · intro x hx; simp at hx
      · intro x hx
        simp only [List.mem_cons] at hx
        rcases hx with hx | hx
        · obtain ⟨c, hc, hnc⟩ := ih l0 (by simp)
          refine ⟨b :: c, by simp [hx, hc], ?_⟩
          simp only [List.mem_cons, not_or]
          exact ⟨fun h => hb h.symm, hnc⟩
        · exact ih x (List.mem_cons_of_mem _ hx)

lemma splitLines_append (a b : List Nat) :
    splitLines (a ++ b) =
      ((splitLines a).1 ++ (splitLines ((splitLines a).2 ++ b)).1,
       (splitLines ((splitLines a).2 ++ b)).2) := by
  induction a with
  | nil => simp [splitLines]
  | cons x a ih =>
    by_cases hx : x = 10
    · subst hx
      have l1 : splitLines (10 :: (a ++ b)) =
          ([10] :: (splitLines (a ++ b)).1, (splitLines (a ++ b)).2) := by
        simp [splitLines]
      have l2 : splitLines (10 :: a) =
          ([10] :: (splitLines a).1, (splitLines a).2) := by
        simp [splitLines]
      rw [List.cons_append, l1, ih, l2]
      simp
    · rcases hsa : splitLines a with ⟨a1, a2⟩
      have ih2 : splitLines (a ++ b) =
          (a1 ++ (splitLines (a2 ++ b)).1, (splitLines (a2 ++ b)).2) := by
        rw [ih, hsa]
      rcases a1 with _ | ⟨l0, ls0⟩
      · have h1 : splitLines (x :: a) = ([], x :: a2) := by
          rw [splitLines_cons_ne x a hx, hsa]
        rcases hsb : splitLines (a2 ++ b) with ⟨b1, b2⟩
        rw [hsb] at ih2
        rw [List.cons_append, splitLines_cons_ne x (a ++ b) hx, ih2, h1]
        simp only [List.nil_append, List.cons_append]
        rw [splitLines_cons_ne x (a2 ++ b) hx, hsb]
      · have h1 : splitLines (x :: a) = ((x :: l0) :: ls0, a2) := by
          rw [splitLines_cons_ne x a hx, hsa]
        rw [List.cons_append, splitLines_cons_ne x (a ++ b) hx, ih2, h1]
        simp
lemma runLines_append (la lb : List (List Nat)) (s : FramerState) :
    runLines s (la ++ lb) =
      match runLines s la with
      | Sum.inl s2 => runLines s2 lb
      | Sum.inr m => Sum.inr m := by
  induction la generalizing s with
  | nil => simp [runLines]
  | cons l ls ih =>
    rw [List.cons_append]
    rcases h : stepLine s l with s2 | m
    · simp [runLines, h, ih]
    · simp [runLines, h]

lemma runChunks_cons (s : FramerState) (acc c : List Nat) (cs : List (List Nat)) :
    runChunks s acc (c :: cs) =
      (match runLines s (splitLines (acc ++ c)).1 with
       | Sum.inl s2 => runChunks s2 (splitLines (acc ++ c)).2 cs
       | Sum.inr m => some (m, cs)) := rfl

lemma runChunks_flat (cs : List (List Nat)) :
    ∀ (s : FramerState) (acc : List Nat), 10 ∉ acc →
      (runChunks s acc cs).map Prod.fst = flatMsg s (acc ++ cs.flatten) := by
  induction cs with
  | nil =>
    intro s acc hacc
    simp [runChunks, flatMsg, splitLines_noNl acc hacc, runLines]
  | cons c cs ih =>
    intro s acc hacc
    rcases hp : splitLines (acc ++ c) with ⟨ls, rem⟩
    have hassoc : acc ++ (c :: cs).flatten = (acc ++ c) ++ cs.flatten := by
      simp [List.flatten_cons, List.append_assoc]
    have hflat : splitLines (acc ++ (c :: cs).flatten) =
        (ls ++ (splitLines (rem ++ cs.flatten)).1, (splitLines (rem ++ cs.flatten)).2) := by
      rw [hassoc]
      have h := splitLines_append (acc ++ c) cs.flatten
      rw [hp] at h
      exact h
    have hrem : 10 ∉ rem := by
      have h := splitLines_rem_noNl (acc ++ c)
      rw [hp] at h
      exact h
    rw [runChunks_cons, hp]
    rcases hr : runLines s ls with s2 | m
    · have hR : flatMsg s (acc ++ (c :: cs).flatten) = flatMsg s2 (rem ++ cs.flatten) := by
        unfold flatMsg
        rw [hflat, runLines_append, hr]
      rw [hR]
      simpa using ih s2 rem hrem
    · have hR : flatMsg s (acc ++ (c :: cs).flatten) = some m := by
        unfold flatMsg
        rw [hflat, runLines_append, hr]
      rw [hR]
      rfl

lemma read_flat (cs : List (List Nat)) :
    (read_complete_gps_message cs).map Prod.fst = flatMsg initState cs.flatten := by
  have h := runChunks_flat cs initState [] (by simp)
  simpa [read_complete_gps_message] using h

lemma stepLine_inv (s : FramerState) (line : List Nat) (hs : FramerInv s) (hl : IsLine line) :
    (∀ s2, stepLine s line = Sum.inl s2 → FramerInv s2) ∧
    (∀ m, stepLine s line = Sum.inr m → MsgWF m) := by
  by_cases hg : sentenceStartsWith line "$GNGGA" = true
  · have ht : sentenceStartsWith line "$GPTXT" = false := gga_txt_incompat line hg
    have hred : stepLine s line = Sum.inl ⟨line, true⟩ := by
      simp [stepLine, hg, ht]
    constructor
    · intro s2 h2
      rw [hred] at h2
      cases h2
      intro _
      exact ⟨line, [], by simp, by simp [hl], hg, by simp⟩
    · intro m hm
      rw [hred] at hm
      cases hm
  · rw [Bool.not_eq_true] at hg
    by_cases hc : s.collecting = true
    · obtain ⟨a, mid, hcm, hlines, hga, hmid⟩ := hs hc
      by_cases ht : sentenceStartsWith line "$GPTXT" = true
      · have hred : stepLine s line = Sum.inr (s.current_message ++ line) := by
          simp [stepLine, hg, hc, ht]
        constructor
        · intro s2 h2
          rw [hred] at h2
          cases h2
        · intro m hm
          rw [hred] at hm
          cases hm
          refine ⟨a, mid, line, ?_, ?_, hga, ht, hmid⟩
          · rw [hcm]
            simp [List.flatten_append, List.append_assoc]
          · intro l hl2
            simp only [List.mem_cons, List.mem_append, List.not_mem_nil, or_false] at hl2
            rcases hl2 with hl2 | hl2 | hl2
            · exact hl2 ▸ hlines a (List.mem_cons_self _ _)
            · exact hlines l (List.mem_cons_of_mem _ hl2)
            · exact hl2 ▸ hl
      · rw [Bool.not_eq_true] at ht
        have hred : stepLine s line = Sum.inl ⟨s.current_message ++ line, true⟩ := by
          simp [stepLine, hg, hc, ht]
        constructor
        · intro s2 h2
          rw [hred] at h2
          cases h2
          intro _
          refine ⟨a, mid ++ [line], ?_, ?_, hga, ?_⟩
          · rw [hcm]
            simp [List.flatten_append, List.append_assoc]
          · intro l hl2
            simp only [List.mem_cons, List.mem_append, List.not_mem_nil, or_false] at hl2
            rcases hl2 with hl2 | hl2 | hl2
            · exact hl2 ▸ hlines a (List.mem_cons_self _ _)
            · exact hlines l (List.mem_cons_of_mem _ hl2)
            · exact hl2 ▸ hl
          · intro l hl2
            simp only [List.mem_append, List.mem_cons, List.not_mem_nil, or_false] at hl2
            rcases hl2 with hl2 | hl2
            · exact hmid l hl2
            · exact hl2 ▸ ⟨hg, ht⟩
        · intro m hm
          rw [hred] at hm
          cases hm
    · rw [Bool.not_eq_true] at hc
      have hred : stepLine s line = Sum.inl s := by
        simp [stepLine, hg, hc]
      constructor
      · intro s2 h2
        rw [hred] at h2
        cases h2
        exact hs
      · intro m hm
        rw [hred] at hm
        cases hm

lemma runLines_inv (ls : List (List Nat)) :
    ∀ (s : FramerState), FramerInv s → (∀ l ∈ ls, IsLine l) →
      (∀ s2, runLines s ls = Sum.inl s2 → FramerInv s2) ∧
      (∀ m, runLines s ls = Sum.inr m → MsgWF m) := by
  induction ls with
  | nil =>
    intro s hs _
    constructor
    · intro s2 h2
      cases h2
      exact hs
    · intro m hm
      cases hm
  | cons l ls ih =>
    intro s hs hlines
    have hl := hlines l (List.mem_cons_self _ _)
    have hrest : ∀ x ∈ ls, IsLine x := fun x hx => hlines x (List.mem_cons_of_mem _ hx)
    obtain ⟨hinl, hinr⟩ := stepLine_inv s l hs hl
    rcases hstep : stepLine s l with s2 | m
    · have hred : runLines s (l :: ls) = runLines s2 ls := by
        simp [runLines, hstep]
      obtain ⟨ih1, ih2⟩ := ih s2 (hinl s2 hstep) hrest
      constructor
      · intro s3 h3
        exact ih1 s3 (hred ▸ h3)
      · intro m2 hm2
        exact ih2 m2 (hred ▸ hm2)
    · have hred : runLines s (l :: ls) = Sum.inr m := by
        simp [runLines, hstep]
      constructor
      · intro s3 h3
        rw [hred] at h3
        cases h3
      · intro m2 hm2
        rw [hred] at hm2
        cases hm2
        exact hinr m hstep

lemma runChunks_wf (cs : List (List Nat)) :
    ∀ (s : FramerState) (acc : List Nat), FramerInv s →
      ∀ m rest, runChunks s acc cs = some (m, rest) → MsgWF m := by
  induction cs with
  | nil =>
    intro s acc _ m rest h
    cases h
  | cons c cs ih =>
    intro s acc hs m rest h
    rw [runChunks_cons] at h
    rcases hr : runLines s (splitLines (acc ++ c)).1 with s2 | m2
    · rw [hr] at h
      exact ih s2 (splitLines (acc ++ c)).2
        ((runLines_inv _ s hs (splitLines_isLine _)).1 s2 hr) m rest h
    · rw [hr] at h
      cases h
      exact (runLines_inv _ s hs (splitLines_isLine _)).2 m hr

lemma framerInv_init : FramerInv initState := by
  intro h
  simp [initState] at h

lemma splitOnce_none (l : List Nat) (h : 44 ∉ l) : splitOnce l = none := by
  induction l with
  | nil => rfl
  | cons b rest ih =>
    have hb : b ≠ 44 := fun hb => h (hb ▸ List.mem_cons_self b rest)
    have h2 : 44 ∉ rest := fun hm => h (List.mem_cons_of_mem _ hm)
    simp [splitOnce, hb, ih h2]

lemma setKey_mem (s : Snapshot) (k : List Nat) (v : Entry) (p : List Nat × Entry)
    (h : p ∈ setKey s k v) : p = (k, v) ∨ p ∈ s := by
  induction s with
  | nil =>
    simp only [setKey, List.mem_cons, List.not_mem_nil, or_false] at h
    exact Or.inl h
  | cons q rest ih =>
    rcases q with ⟨k1, v1⟩
    by_cases hk : k1 = k
    · rw [show setKey ((k1, v1) :: rest) k v = (k, v) :: rest by simp [setKey, hk]] at h
      rcases List.mem_cons.mp h with h | h
      · exact Or.inl h
      · exact Or.inr (List.mem_cons_of_mem _ h)
    · rw [show setKey ((k1, v1) :: rest) k v = (k1, v1) :: setKey rest k v by
        simp [setKey, hk]] at h
      rcases List.mem_cons.mp h with h | h
      · exact Or.inr (h ▸ List.mem_cons_self _ _)
      · rcases ih h with h2 | h2
        · exact Or.inl h2
        · exact Or.inr (List.mem_cons_of_mem _ h2)

lemma parseStep_eq (s : Snapshot) (line : List Nat) :
    parseStep s line =
      match splitOnce line with
      | none => s
      | some (tag, rest) =>
        match mkEntry (tag.dropWhile (fun b => b == 36)) rest (splitOnByte 44 rest) with
        | none => s
        | some e => setKey s (tag.dropWhile (fun b => b == 36)) e := rfl

lemma parseStep_inv (s : Snapshot) (line : List Nat)
    (hs : ∀ p ∈ s, ∃ r f, mkEntry p.1 r f = some p.2) :
    ∀ p ∈ parseStep s line, ∃ r f, mkEntry p.1 r f = some p.2 := by
  intro p hp
  rw [parseStep_eq] at hp
  rcases h1 : splitOnce line with _ | ⟨tag, rest⟩
  · rw [h1] at hp
    exact hs p hp
  · simp only [h1] at hp
    rcases h2 : mkEntry (tag.dropWhile (fun b => b == 36)) rest (splitOnByte 44 rest)
      with _ | e
    · simp only [h2] at hp
      exact hs p hp
    · simp only [h2] at hp
      rcases setKey_mem s _ e p hp with h3 | h3
      · subst h3
        exact ⟨rest, splitOnByte 44 rest, h2⟩
      · exact hs p h3

lemma parse_inv (input : List Nat) :
    ∀ p ∈ parse_gps_data input, ∃ r f, mkEntry p.1 r f = some p.2 := by
  have haux : ∀ (ls : List (List Nat)) (s : Snapshot),
      (∀ p ∈ s, ∃ r f, mkEntry p.1 r f = some p.2) →
      ∀ p ∈ ls.foldl parseStep s, ∃ r f, mkEntry p.1 r f = some p.2 := by
    intro ls
    induction ls with
    | nil => intro s hs; simpa using hs
    | cons l ls ih =>
      intro s hs
      exact ih (parseStep s l) (parseStep_inv s l hs)
  intro p hp
  exact haux (rustLines ((utf8Decode input).getD [])) [] (by simp) p hp

lemma mkEntry_known (t r : List Nat) (f : List (List Nat)) (e : Entry)
    (h : mkEntry t r f = some e) : t ∈ knownTypes := by
  unfold mkEntry at h
  split_ifs at h with h1 h2 h3 h4 h5 h6 h7 h8
  · subst h1; decide
  · subst h2; decide
  · rcases h3 with h3 | h3 <;> subst h3 <;> decide
  · rcases h4 with h4 | h4 <;> subst h4 <;> decide
  · subst h5; decide
  · subst h6; decide
  · subst h7; decide
  · subst h8; decide

lemma mkEntry_shape (t r : List Nat) (f : List (List Nat)) (e : Entry)
    (h : mkEntry t r f = some e) :
    (t = ascii "GPTXT" ∧ e = [(ascii "text", r)]) ∨
    (t ≠ ascii "GPTXT" ∧ e = (fieldTable t).map (fun p => (p.1, f.getD p.2 []))) := by
  unfold mkEntry at h
  split_ifs at h with h1 h2 h3 h4 h5 h6 h7 h8
  · right
    subst h1
    injection h with h
    exact ⟨by decide, by rw [← h]; rfl⟩
  · right
    subst h2
    injection h with h
    exact ⟨by decide, by rw [← h]; rfl⟩
  · right
    rcases h3 with h3 | h3 <;> subst h3 <;> injection h with h <;>
      exact ⟨by decide, by rw [← h]; rfl⟩
  · right
    rcases h4 with h4 | h4 <;> subst h4 <;> injection h with h <;>
      exact ⟨by decide, by rw [← h]; rfl⟩
  · right
    subst h5
    injection h with h
    exact ⟨by decide, by rw [← h]; rfl⟩
  · right
    subst h6
    injection h with h
    exact ⟨by decide, by rw [← h]; rfl⟩
  · right
    subst h7
    injection h with h
    exact ⟨by decide, by rw [← h]; rfl⟩
  · left
    subst h8
    injection h with h
    exact ⟨rfl, h.symm⟩

lemma lookupKey_mem {α : Type} (s : List (List Nat × α)) (k : List Nat) (v : α)
    (h : lookupKey s k = some v) : (k, v) ∈ s := by
  induction s with
  | nil => cases h
  | cons p rest ih =>
    rcases p with ⟨k1, v1⟩
    by_cases hk : k1 = k
    · rw [show lookupKey ((k1, v1) :: rest) k = some v1 by simp [lookupKey, hk]] at h
      cases h
      subst hk
      exact List.mem_cons_self _ _
    · rw [show lookupKey ((k1, v1) :: rest) k = lookupKey rest k by simp [lookupKey, hk]] at h
      exact List.mem_cons_of_mem _ (ih h)

lemma lookupKey_map_mem (F : List Nat × Nat → List Nat) :
    ∀ (tbl : List (List Nat × Nat)) (k : List Nat), k ∈ tbl.map Prod.fst →
      ∃ v, lookupKey (tbl.map (fun p => (p.1, F p))) k = some v := by
  intro tbl
  induction tbl with
  | nil => intro k hk; simp at hk
  | cons p rest ih =>
    intro k hk
    rcases p with ⟨k1, i1⟩
    by_cases hkk : k1 = k
    · exact ⟨F (k1, i1), by simp [lookupKey, hkk]⟩
    · simp only [List.map_cons, List.mem_cons] at hk
      rcases hk with hk | hk
      · exact absurd hk.symm hkk
      · obtain ⟨v, hv⟩ := ih k hk
        exact ⟨v, by simp [lookupKey, hkk, hv]⟩

lemma lookupKey_map_val (F : List Nat × Nat → List Nat) :
    ∀ (tbl : List (List Nat × Nat)) (k : List Nat) (i : Nat),
      (tbl.map Prod.fst).Nodup → (k, i) ∈ tbl →
      lookupKey (tbl.map (fun p => (p.1, F p))) k = some (F (k, i)) := by
  intro tbl
  induction tbl with
  | nil => intro k i _ hm; simp at hm
  | cons p rest ih =>
    intro k i hnd hm
    rcases p with ⟨k1, i1⟩
    simp only [List.map_cons, List.nodup_cons] at hnd
    obtain ⟨hk1, hnd⟩ := hnd
    rcases List.mem_cons.mp hm with hm | hm
    · injection hm with e1 e2
      subst e1
      subst e2
      simp [lookupKey]
    · by_cases hkk : k1 = k
      · subst hkk
        exact absurd (List.mem_map_of_mem Prod.fst hm) hk1
      · rw [show lookupKey (((k1, i1) :: rest).map (fun p => (p.1, F p))) k =
            lookupKey (rest.map (fun p => (p.1, F p))) k by simp [lookupKey, hkk]]
        exact ih k i hnd hm

lemma fieldTable_nodup (t : List Nat) : ((fieldTable t).map Prod.fst).Nodup := by
  unfold fieldTable
  split_ifs with h1 h2 h3 h4 h5 h6 h7 <;> decide

set_option maxRecDepth 100000

/-- C1 (corrected). The claim asserts that the Accumulator Buffer persists
across successive invocations of the Framer, so that bytes read but not yet
consumed — a trailing partial line, or bytes after the returned message's
end-sentinel line — remain available to the next invocation. The code makes
`data_accumulator` a local variable of `read_complete_gps_message`, so those
bytes are discarded when the call returns. Here the first invocation reads a
chunk that ends with the partial line `$GNGGA,par`; the continuation
`tial\n$GPTXT,c\n` arrives in the next chunk. Under the claim the second
invocation would return `$GNGGA,partial\n$GPTXT,c\n`; in fact it returns
nothing, while delivering the identical byte stream in chunks that a single
invocation consumes whole does produce that message. -/
theorem C1_counterexample :
    framerCalls [ascii "$GNGGA,a\n$GPTXT,b\n$GNGGA,par", ascii "tial\n$GPTXT,c\n"] =
      (some (ascii "$GNGGA,a\n$GPTXT,b\n"), none) ∧
    framerCalls [ascii "$GNGGA,a\n$GPTXT,b\n", ascii "$GNGGA,par", ascii "tial\n$GPTXT,c\n"] =
      (some (ascii "$GNGGA,a\n$GPTXT,b\n"), some (ascii "$GNGGA,partial\n$GPTXT,c\n")) := by
  constructor
  · decide
  · decide

/-- C1 (amended). Within a single invocation the accumulator does persist
across successive reads: splitting a read's bytes across two consecutive
reads never changes the message returned, so no partial line is lost between
read calls of one invocation. (Across invocations the buffer is local and
leftover bytes are discarded, as the counterexample shows.) -/
theorem C1_theorem (c1 c2 : List Nat) (cs : List (List Nat)) :
    (read_complete_gps_message ((c1 ++ c2) :: cs)).map Prod.fst =
      (read_complete_gps_message (c1 :: c2 :: cs)).map Prod.fst := by
  rw [read_flat, read_flat]
  have h : ((c1 ++ c2) :: cs).flatten = (c1 :: c2 :: cs).flatten := by
    simp [List.flatten_cons, List.append_assoc]
  rw [h]

/-- C2 (corrected). The claim asserts that `parse_gps_data` decodes its input
permissively (invalid UTF-8 replaced, never rejected) so that well-formed
lines still contribute entries. The code instead uses
`str::from_utf8(nmea_data).unwrap_or_default()`: a single invalid byte makes
the whole message decode to the empty string. Appending the byte 255 after a
perfectly well-formed `$GPTXT` line yields an empty snapshot, although the
same input without that byte parses the line. -/
theorem C2_counterexample :
    parse_gps_data (ascii "$GPTXT,hi\n" ++ [255]) = [] ∧
    parse_gps_data (ascii "$GPTXT,hi\n") = [(ascii "GPTXT", [(ascii "text", ascii "hi")])] := by
  constructor
  · decide
  · decide

/-- C2 (amended). If the byte input is not valid UTF-8, `parse_gps_data`
decodes it as the empty string (`unwrap_or_default`) and returns the empty
snapshot: invalid bytes anywhere cause the entire message to decode to
nothing, and no line of it contributes an entry. -/
theorem C2_theorem (nmea_data : List Nat) (h : utf8Decode nmea_data = none) :
    parse_gps_data nmea_data = [] := by
  unfold parse_gps_data
  rw [h]
  rfl

/-- Witness for C2_theorem at the concrete invalid input `[255]`. -/
theorem C2_witness : utf8Decode [255] = none ∧ parse_gps_data [255] = [] :=
  ⟨by decide, C2_theorem [255] (by decide)⟩

/-- C3 (corrected). The claim asserts chunk-boundary independence for the
whole stream including across separate top-level calls. Within one call it
holds (see C3_theorem), but across calls it fails because the local
accumulator's leftover bytes are discarded: delivering two complete messages
in one chunk loses the second one, while delivering them in separate chunks
does not — on the same total byte stream. -/
theorem C3_counterexample :
    ([ascii "$GNGGA,a\n$GPTXT,b\n$GNGGA,c\n$GPTXT,d\n"] : List (List Nat)).flatten =
      ([ascii "$GNGGA,a\n$GPTXT,b\n", ascii "$GNGGA,c\n$GPTXT,d\n"] : List (List Nat)).flatten ∧
    framerCalls [ascii "$GNGGA,a\n$GPTXT,b\n$GNGGA,c\n$GPTXT,d\n"] ≠
      framerCalls [ascii "$GNGGA,a\n$GPTXT,b\n", ascii "$GNGGA,c\n$GPTXT,d\n"] := by
  constructor
  · decide
  · decide

/-- C3 (amended). Within a single invocation of `read_complete_gps_message`,
for every two ways of splitting the same total byte stream into chunks —
including boundaries in the middle of a line — the returned Raw Message is
identical. -/
theorem C3_theorem (cs1 cs2 : List (List Nat)) (h : cs1.flatten = cs2.flatten) :
    (read_complete_gps_message cs1).map Prod.fst =
      (read_complete_gps_message cs2).map Prod.fst := by
  rw [read_flat, read_flat, h]

/-- Witness for C3_theorem: one message delivered whole versus split at a
line boundary. -/
theorem C3_witness :
    (read_complete_gps_message [ascii "$GNGGA,q\n$GPTXT,r\n"]).map Prod.fst =
      (read_complete_gps_message [ascii "$GNGGA,q\n", ascii "$GPTXT,r\n"]).map Prod.fst :=
  C3_theorem _ _ (by decide)

/-- C4 (confirmed). `parse_gps_data` is a total function of its byte input —
the embedding is a plain Lean function with no failure path, mirroring the
panic-free Rust (`unwrap_or_default`, `get(i).unwrap_or`) — and every entry
of the returned snapshot is keyed by one of the known sentence types, so the
result is always a valid (possibly empty) Parsed Snapshot. -/
theorem C4_theorem (input : List Nat) :
    (parse_gps_data input).all (fun q => decide (q.1 ∈ knownTypes)) = true := by
  rw [List.all_eq_true]
  intro q hq
  rw [decide_eq_true_eq]
  obtain ⟨r, f, h⟩ := parse_inv input q hq
  exact mkEntry_known _ r f _ h

/-- C5 (confirmed). On the stream consisting of the GNGGA line followed by
the GPTXT line, the framer returns exactly their concatenation as one Raw
Message, and parsing that message yields the stated GNGGA and GPTXT
entries. -/
theorem C5_theorem :
    read_complete_gps_message
        [ascii "$GNGGA,123519,4807.038,N,01131.000,E,1,08,0.9,545.4,M,46.9,M,,*47\n",
         ascii "$GPTXT,01,01,01,ANTENNA OPEN*25\n"] =
      some (ascii "$GNGGA,123519,4807.038,N,01131.000,E,1,08,0.9,545.4,M,46.9,M,,*47\n$GPTXT,01,01,01,ANTENNA OPEN*25\n", []) ∧
    lookupKey
        (parse_gps_data (ascii "$GNGGA,123519,4807.038,N,01131.000,E,1,08,0.9,545.4,M,46.9,M,,*47\n$GPTXT,01,01,01,ANTENNA OPEN*25\n"))
        (ascii "GNGGA") =
      some [(ascii "time", ascii "123519"), (ascii "latitude", ascii "4807.038"),
            (ascii "longitude", ascii "01131.000"), (ascii "fix_quality", ascii "1"),
            (ascii "num_of_satellites", ascii "08"), (ascii "horizontal_dilution", ascii "0.9"),
            (ascii "altitude", ascii "545.4"), (ascii "height_of_geoid", ascii "46.9")] ∧
    lookupKey
        (parse_gps_data (ascii "$GNGGA,123519,4807.038,N,01131.000,E,1,08,0.9,545.4,M,46.9,M,,*47\n$GPTXT,01,01,01,ANTENNA OPEN*25\n"))
        (ascii "GPTXT") =
      some [(ascii "text", ascii "01,01,01,ANTENNA OPEN*25")] := by
  refine ⟨?_, ?_, ?_⟩
  · decide
  · decide
  · decide

/-- C6 (confirmed). For lines dispatched to a known sentence type: an
extraction-table index at or beyond the length of the comma-split field list
yields the empty string for that output field, never an error; and every
entry present in a parsed snapshot contains every output field named in its
sentence type's table row as a key. -/
theorem C6_theorem :
    (∀ st rest fields e, mkEntry st rest fields = some e →
      ∀ p ∈ fieldTable st, fields.length ≤ p.2 → lookupKey e p.1 = some []) ∧
    (∀ input t e, lookupKey (parse_gps_data input) t = some e →
      ∀ n ∈ rowNames t, ∃ v, lookupKey e n = some v) := by
  constructor
  · intro st rest fields e h p hp hlen
    rcases mkEntry_shape st rest fields e h with ⟨ht, he⟩ | ⟨ht, he⟩
    · subst ht
      rw [show fieldTable (ascii "GPTXT") = [] from by decide] at hp
      simp at hp
    · subst he
      rcases p with ⟨n, i⟩
      rw [lookupKey_map_val (fun p => fields.getD p.2 []) (fieldTable st) n i
        (fieldTable_nodup st) hp]
      rw [List.getD_eq_default _ _ hlen]
  · intro input t e h n hn
    obtain ⟨r, f, hm⟩ := parse_inv input (t, e) (lookupKey_mem _ _ _ h)
    rcases mkEntry_shape t r f e hm with ⟨ht, he⟩ | ⟨ht, he⟩
    · subst ht
      subst he
      rw [show rowNames (ascii "GPTXT") = [ascii "text"] from by decide] at hn
      rcases List.mem_cons.mp hn with hn | hn
      · subst hn
        exact ⟨r, by simp [lookupKey]⟩
      · simp at hn
    · have hrn : rowNames t = (fieldTable t).map Prod.fst := by
        unfold rowNames
        rw [if_neg ht]
      rw [hrn] at hn
      subst he
      exact lookupKey_map_mem (fun p => f.getD p.2 []) (fieldTable t) n hn

/-- Witness for C6_theorem: the single-field line `$GNGGA,x` — index 10 is
beyond the one-element field list and resolves to the empty string, and the
`time` key is present in the snapshot entry parsed from `$GNGGA,x\n`. -/
theorem C6_witness :
    lookupKey sampleGga (ascii "height_of_geoid") = some [] ∧
    ∃ v, lookupKey sampleGga (ascii "time") = some v := by
  constructor
  · exact C6_theorem.1 (ascii "GNGGA") (ascii "x") [ascii "x"] sampleGga (by decide)
      (ascii "height_of_geoid", 10) (by decide) (by decide)
  · exact C6_theorem.2 (ascii "$GNGGA,x\n") (ascii "GNGGA") sampleGga (by decide)
      (ascii "time") (by decide)

/-- C7 (confirmed). Whenever the framer scans a line starting with the start
sentinel `$GNGGA`, whatever the prior state — collecting or not, with any
partially collected message — the in-progress collection is cleared and
collection restarts with exactly that line, and no message is returned for
it. -/
theorem C7_theorem (s : FramerState) (line : List Nat)
    (hg : sentenceStartsWith line "$GNGGA" = true) :
    stepLine s line = Sum.inl ⟨line, true⟩ := by
  simp [stepLine, hg, gga_txt_incompat line hg]

/-- Witness for C7_theorem: a start-sentinel line scanned while an abandoned
collection is in progress. -/
theorem C7_witness :
    stepLine ⟨ascii "$GNVTG,x\n", true⟩ (ascii "$GNGGA,1\n") =
      Sum.inl ⟨ascii "$GNGGA,1\n", true⟩ :=
  C7_theorem _ _ (by decide)

/-- C8 (confirmed). A line starting with the end sentinel `$GPTXT` scanned
while no collection is active returns no Raw Message and leaves the framer
state exactly as it was: the line is consumed and discarded. -/
theorem C8_theorem (s : FramerState) (line : List Nat)
    (hc : s.collecting = false)
    (ht : sentenceStartsWith line "$GPTXT" = true) :
    stepLine s line = Sum.inl s := by
  have hg : sentenceStartsWith line "$GNGGA" = false := by
    by_contra hgg
    rw [Bool.not_eq_false] at hgg
    have h2 := gga_txt_incompat line hgg
    rw [ht] at h2
    simp at h2
  simp [stepLine, hg, hc]

/-- Witness for C8_theorem: an end-sentinel line with an idle framer. -/
theorem C8_witness :
    stepLine ⟨ascii "junk", false⟩ (ascii "$GPTXT,z\n") =
      Sum.inl ⟨ascii "junk", false⟩ :=
  C8_theorem _ _ rfl (by decide)

/-- C9 (confirmed). Every Raw Message returned by
`read_complete_gps_message` is a concatenation of whole newline-terminated
lines whose first line starts with `$GNGGA`, whose last line starts with
`$GPTXT`, and whose interior lines start with neither sentinel. -/
theorem C9_theorem (chunks : List (List Nat)) (m : List Nat) (rest : List (List Nat))
    (h : read_complete_gps_message chunks = some (m, rest)) : MsgWF m :=
  runChunks_wf chunks initState [] framerInv_init m rest h

/-- Witness for C9_theorem on a concrete three-line message. -/
theorem C9_witness : MsgWF (ascii "$GNGGA,w1\n$XXYYY,w2\n$GPTXT,w3\n") :=
  C9_theorem [ascii "$GNGGA,w1\n$XXYYY,w2\n$GPTXT,w3\n"]
    (ascii "$GNGGA,w1\n$XXYYY,w2\n$GPTXT,w3\n") [] (by decide)

/-- C10 (confirmed). A line containing no comma adds no entry to the
snapshot — `split_once(',')` returns nothing and the line is skipped — even
when the line names a known sentence type, such as the bare line `$GPTXT`. -/
theorem C10_theorem (s : Snapshot) (line : List Nat) (h : 44 ∉ line) :
    parseStep s line = s := by
  rw [parseStep_eq, splitOnce_none line h]

/-- Witness for C10_theorem: the bare known-type line `$GPTXT` leaves the
empty snapshot empty. -/
theorem C10_witness : parseStep [] (ascii "$GPTXT") = [] :=
  C10_theorem [] (ascii "$GPTXT") (by decide)
